import Mathlib

/-!
Verification of the EEG epoch-extraction core (`CMLLoad.LoadEEG`) and the
cluster failure-checking wrapper (`ClusterChecked`) of the PythonBootcamp
repository, as a shallow embedding in Lean.

Modelling conventions:
* a floating-point sample value is `Option ℚ`, with `none` standing for the
  missing-value marker NaN (`np.nan`); `np.isnan` is `Option.isNone`;
* a 3-dimensional numpy array of shape (segment, channel, sample) is an
  `Arr3`: explicit shape metadata plus nested lists of values, with the
  rectangularity that numpy guarantees expressed by the predicate `Rect`;
* Python's `round` (banker's rounding, half to even) on the exact rational
  value is `pyRound`; `int(...)` of the already-integral rounded value is
  the identity, so `int(round(x))` is `pyRound x`;
* exceptions become an explicit result type `LoadResult`.
-/

set_option maxRecDepth 10000

/-- A numpy float value: `none` is NaN (the missing-value marker). -/
abbrev Value := Option ℚ

/-- Python 3 `round` to an integer: round half to even (banker's rounding),
modelled on exact rationals. -/
def pyRound (q : ℚ) : ℤ :=
  let f := q.floor
  let r := q - f
  if r < 1/2 then f
  else if 1/2 < r then f + 1
  else if f % 2 = 0 then f else f + 1

/-- A 3-dimensional numpy array over `Value` with axes
(recording-segment, channel, sample): shape metadata plus the entries. -/
structure Arr3 where
  s0 : ℕ
  s1 : ℕ
  s2 : ℕ
  d : List (List (List Value))
deriving DecidableEq

/-- Rectangularity: the nested lists actually have the declared shape,
as every numpy ndarray does. -/
def Rect (a : Arr3) : Prop :=
  a.d.length = a.s0 ∧ ∀ seg ∈ a.d, seg.length = a.s1 ∧ ∀ chl ∈ seg, chl.length = a.s2

instance (a : Arr3) : Decidable (Rect a) := by
  unfold Rect; exact inferInstance

/-- The session-identifying fields of a DataFrame row, as used by `_GetLabel`. -/
structure SessionRow where
  subject : String
  experiment : String
  session : String
deriving DecidableEq

/-- `CMLLoad._GetLabel`: the subject, experiment and session fields joined by
single spaces. -/
def getLabel (dr : SessionRow) : String :=
  dr.subject ++ " " ++ dr.experiment ++ " " ++ dr.session

/-- The message of the strict-mode `ArithmeticError` raised by `LoadEEG`. -/
def nanMsg (dr : SessionRow) : String :=
  "nans in eeg data for " ++ getLabel dr

/-- The exceptions `LoadEEG` can raise past the file reads:
`ValueError('ev_len yields 0 or fewer samples')` and
`ArithmeticError('nans in eeg data for ...')`. -/
inductive LoadErr where
  | windowTooShort : LoadErr
  | nanStrict : String → LoadErr
deriving DecidableEq

/-- Outcome of one `LoadEEG` call: either the returned triple
(data, samplingrate, channels) or a raised exception. -/
inductive LoadResult where
  | ok : List (List (List Value)) → ℚ → List String → LoadResult
  | err : LoadErr → LoadResult
deriving DecidableEq

/-- `np.any(np.isnan(data))` on a 3-dimensional array. -/
def hasNaN3 (d : List (List (List Value))) : Bool :=
  d.any fun seg => seg.any fun chl => chl.any Option.isNone

/-- The effective start offset in ms: `ev_start -= buf` when `buf` is given. -/
def evStartEff (ev_start : ℚ) (buf : Option ℚ) : ℚ :=
  match buf with
  | none => ev_start
  | some b => ev_start - b

/-- The effective window length in ms: `ev_len += 2*buf` when `buf` is given. -/
def evLenEff (ev_len : ℚ) (buf : Option ℚ) : ℚ :=
  match buf with
  | none => ev_len
  | some b => ev_len + 2 * b

/-- `buf_trim = int(round(buf*sr/1000.))`, or `0` when no buffer is given. -/
def bufTrim (buf : Option ℚ) (sr : ℚ) : ℤ :=
  match buf with
  | none => 0
  | some b => pyRound (b * sr / 1000)

/-- `samp_start = int(round(ev_start*sr/1000.))` after the buffer adjustment. -/
def sampStart (ev_start : ℚ) (buf : Option ℚ) (sr : ℚ) : ℤ :=
  pyRound (evStartEff ev_start buf * sr / 1000)

/-- `samp_len = int(round(ev_len*sr/1000.))` after the buffer adjustment. -/
def sampLen (ev_len : ℚ) (buf : Option ℚ) (sr : ℚ) : ℤ :=
  pyRound (evLenEff ev_len buf * sr / 1000)

/-- `data[0, :, st.toNat : st.toNat + len.toNat]`: the per-channel slice of the
first recording segment over the given sample window. -/
def sliceWindow (a : Arr3) (st len : ℤ) : List (List Value) :=
  (a.d.headD []).map fun chl => (chl.drop st.toNat).take len.toNat

/-- One all-NaN row of the epoch tensor, as allocated by
`np.full((len(events), data.shape[1], samp_len), np.nan)`. -/
def nanRow (a : Arr3) (len : ℤ) : List (List Value) :=
  List.replicate a.s1 (List.replicate len.toNat (none : Value))

/-- The row the loop body leaves in `evarr[i]` for one event with offset `ev`:
`evarr[i] = data[0, :, st:en]` when `st >= 0 and en <= data.shape[2]`, else the
NaN fill remains untouched. -/
def eventRow (a : Arr3) (st0 len : ℤ) (ev : ℤ) : List (List Value) :=
  if 0 ≤ ev + st0 ∧ ev + st0 + len ≤ (a.s2 : ℤ) then
    sliceWindow a (ev + st0) len
  else
    nanRow a len

/-- The filled epoch tensor: the loop over `self.events.itertuples()`. -/
def loadSeg (a : Arr3) (events : List ℤ) (st0 len : ℤ) : List (List (List Value)) :=
  events.map (eventRow a st0 len)

/-- The segmentation tail of `CMLLoad.LoadEEG` once the millisecond arguments
have been converted to sample counts: the minimum-length check
(`if samp_len <= 2*buf_trim: raise ValueError`), the event loop, and the
strict NaN check. -/
def loadEEGSamp (dr : SessionRow) (a : Arr3) (sr : ℚ) (channels : List String)
    (events : List ℤ) (samp_start samp_len buf_trim : ℤ) (strict : Bool) :
    LoadResult :=
  if samp_len ≤ 2 * buf_trim then .err .windowTooShort
  else if strict && hasNaN3 (loadSeg a events samp_start samp_len) then
    .err (.nanStrict (nanMsg dr))
  else .ok (loadSeg a events samp_start samp_len) sr channels

/-- `CMLLoad.LoadEEG` past the file reads: `a` is the signal read from the
`eeg` file, `sr` its samplerate attribute, `channels` the channels table,
`events` the `eegoffset` column of the events table, and `strict` the flag
after `_GetStrict` resolution. Returns the `(data, sr, channels)` triple or
the raised exception. -/
def loadEEG (dr : SessionRow) (a : Arr3) (sr : ℚ) (channels : List String)
    (events : List ℤ) (ev_start : ℚ) (ev_len : Option ℚ) (buf : Option ℚ)
    (strict : Bool) : LoadResult :=
  match ev_len with
  | none =>
      if strict && hasNaN3 a.d then .err (.nanStrict (nanMsg dr))
      else .ok a.d sr channels
  | some l =>
      loadEEGSamp dr a sr channels events
        (sampStart ev_start buf sr) (sampLen l buf sr) (bufTrim buf sr) strict

/-- Discard `k` samples from each end of a channel's sample list (the
trimming operation of the spec's padding law). -/
def trimEnds (k : ℕ) (chl : List Value) : List Value :=
  (chl.drop k).take (chl.length - 2 * k)

/-- Discard `k` samples from each end of every channel of one epoch row. -/
def trimRow (k : ℕ) (row : List (List Value)) : List (List Value) :=
  row.map (trimEnds k)

/-- The mutable state a `CMLLoad` object carries across `LoadEEG` calls:
the `strict` default from `__init__` and the `self.events` attribute. -/
structure LoaderState where
  strict : Bool
  events : Option (List ℤ)
deriving DecidableEq

/-- `CMLLoad._GetStrict`: an explicit argument overrides the instance
default. -/
def resolveStrict (ls : LoaderState) (strictArg : Option Bool) : Bool :=
  match strictArg with
  | some b => b
  | none => ls.strict

/-- `CMLLoad.LoadEEG` as a state transformer on the loader object: resolves
`strict` via `_GetStrict`, and in segmentation mode stores the loaded event
table in `self.events` (which happens before the minimum-length check, so the
assignment persists even when an exception is raised). -/
def loadEEGSt (ls : LoaderState) (dr : SessionRow) (a : Arr3) (sr : ℚ)
    (channels : List String) (events : List ℤ) (ev_start : ℚ)
    (ev_len : Option ℚ) (buf : Option ℚ) (strictArg : Option Bool) :
    LoadResult × LoaderState :=
  match ev_len with
  | none =>
      (if resolveStrict ls strictArg && hasNaN3 a.d then
        .err (.nanStrict (nanMsg dr))
       else .ok a.d sr channels, ls)
  | some l =>
      (if sampLen l buf sr ≤ 2 * bufTrim buf sr then .err .windowTooShort
       else if resolveStrict ls strictArg &&
           hasNaN3 (loadSeg a events (sampStart ev_start buf sr) (sampLen l buf sr)) then
         .err (.nanStrict (nanMsg dr))
       else .ok (loadSeg a events (sampStart ev_start buf sr) (sampLen l buf sr)) sr channels,
       { ls with events := some events })

/-- Result of one `ClusterChecked` call: the success message, the
`RuntimeError('All N jobs failed!')`, or the printed list of failing
parameters followed by `RuntimeError('k of N jobs failed!')`. -/
inductive ClusterOutcome (α : Type) where
  | success : ℕ → ClusterOutcome α
  | allFailed : ℕ → ClusterOutcome α
  | someFailed : List α → ℕ → ℕ → ClusterOutcome α
deriving DecidableEq

/-- `ClusterRun`: dispatch one task per parameter and collect the results in
input order (`view.map(function, parameter_list)`). -/
def clusterRun {α β : Type} (f : α → β) (params : List α) : List β :=
  params.map f

/-- The failing parameter values printed by `ClusterChecked`:
`parameter_list[i] for i in range(len(res)) if not bool(res[i])`. -/
def failingParams {α : Type} (f : α → Bool) (params : List α) : List α :=
  params.filter fun p => !(f p)

/-- `failed = sum([not bool(b) for b in res])`. -/
def failedCount {α : Type} (f : α → Bool) (params : List α) : ℕ :=
  ((clusterRun f params).filter fun b => !b).length

/-- `ClusterChecked`: run every task, then inspect the collected results. -/
def clusterChecked {α : Type} (f : α → Bool) (params : List α) :
    ClusterOutcome α :=
  if (clusterRun f params).all fun b => b then
    .success (clusterRun f params).length
  else if failedCount f params = (clusterRun f params).length then
    .allFailed (failedCount f params)
  else
    .someFailed (failingParams f params) (failedCount f params)
      (clusterRun f params).length

/-! Concrete fixtures used by the witnesses: a (1, 2, 1000) signal whose
sample at (0, c, t) is `1000*c + t`, a small (1, 1, 10) signal, a session
row, and the 5-element cluster scenario. -/

def sigA : Arr3 :=
  ⟨1, 2, 1000, [[(List.range 1000).map fun t => some (t : ℚ),
                 (List.range 1000).map fun t => some ((1000 + t : ℕ) : ℚ)]]⟩

def sigB : Arr3 :=
  ⟨1, 1, 10, [[[some 0, some 1, some 2, some 3, some 4,
                some 5, some 6, some 7, some 8, some 9]]]⟩

def sigB2 : Arr3 :=
  ⟨2, 1, 10, [[[some 0, some 1, some 2, some 3, some 4,
                some 5, some 6, some 7, some 8, some 9]],
              [[some 90, some 91, some 92, some 93, some 94,
                some 95, some 96, some 97, some 98, some 99]]]⟩

def sigB2alt : Arr3 :=
  ⟨2, 1, 10, [[[some 0, some 1, some 2, some 3, some 4,
                some 5, some 6, some 7, some 8, some 9]],
              [[some 70, some 71, some 72, some 73, some 74,
                some 75, some 76, some 77, some 78, some 79]]]⟩

def drA : SessionRow := ⟨"R1000A", "FR1", "0"⟩

def fC9 : ℤ → Bool := fun p => decide (p ≠ 2 ∧ p ≠ 4)

def paramsC9 : List ℤ := [1, 2, 3, 4, 5]

/-! Helper lemmas. -/

/-- `Rat.floor` agrees with the `Int.floor` of the `FloorRing` instance. -/
theorem ratFloor_eq_intFloor (q : ℚ) : q.floor = ⌊q⌋ :=
  (Rat.floor_def' q).trans Rat.floor_def.symm

/-- `pyRound` of an integer is that integer. -/
theorem pyRound_intCast (n : ℤ) : pyRound (n : ℚ) = n := by
  unfold pyRound
  rw [ratFloor_eq_intFloor, Int.floor_intCast]
  norm_num

/-- Evaluation helper: `pyRound q = n` once `q` is shown to be the integer
`n`. -/
theorem pyRound_eq_of_eq_intCast {q : ℚ} {n : ℤ} (h : q = (n : ℚ)) :
    pyRound q = n := by
  rw [h, pyRound_intCast]

/-- In segmentation mode `loadEEG` is the sample-count tail applied to the
converted millisecond arguments. -/
theorem loadEEG_some_def (dr : SessionRow) (a : Arr3) (sr : ℚ)
    (ch : List String) (events : List ℤ) (es l : ℚ) (buf : Option ℚ)
    (strict : Bool) :
    loadEEG dr a sr ch events es (some l) buf strict =
      loadEEGSamp dr a sr ch events (sampStart es buf sr) (sampLen l buf sr)
        (bufTrim buf sr) strict := rfl

/-- Inversion: a successful segmentation call returns the filled epoch
tensor, the unchanged sample rate and channels, and passed the
minimum-length check. -/
theorem loadEEGSamp_ok_inv {dr : SessionRow} {a : Arr3} {sr : ℚ}
    {ch : List String} {events : List ℤ} {s L B : ℤ} {strict : Bool}
    {out : List (List (List Value))} {sro : ℚ} {cho : List String}
    (h : loadEEGSamp dr a sr ch events s L B strict = .ok out sro cho) :
    out = loadSeg a events s L ∧ sro = sr ∧ cho = ch ∧ 2 * B < L := by
  unfold loadEEGSamp at h
  by_cases hg : L ≤ 2 * B
  · rw [if_pos hg] at h
    exact absurd h (by simp)
  · rw [if_neg hg] at h
    by_cases hn : (strict && hasNaN3 (loadSeg a events s L)) = true
    · rw [if_pos hn] at h
      exact absurd h (by simp)
    · rw [if_neg hn] at h
      injection h with h1 h2 h3
      exact ⟨h1.symm, h2.symm, h3.symm, by omega⟩

/-- Row `i` of the epoch tensor is `eventRow` of event `i`. -/
theorem loadSeg_getElem (a : Arr3) (events : List ℤ) (st0 len : ℤ) (i : ℕ) :
    (loadSeg a events st0 len)[i]? = (events[i]?).map (eventRow a st0 len) :=
  List.getElem?_map (eventRow a st0 len) events i

/-- An in-bounds event's row is the signal slice. -/
theorem eventRow_inbounds {a : Arr3} {st0 len ev : ℤ}
    (h1 : 0 ≤ ev + st0) (h2 : ev + st0 + len ≤ (a.s2 : ℤ)) :
    eventRow a st0 len ev = sliceWindow a (ev + st0) len :=
  if_pos ⟨h1, h2⟩

/-- An out-of-bounds event's row keeps the NaN fill. -/
theorem eventRow_oob {a : Arr3} {st0 len ev : ℤ}
    (h : ¬(0 ≤ ev + st0 ∧ ev + st0 + len ≤ (a.s2 : ℤ))) :
    eventRow a st0 len ev = nanRow a len :=
  if_neg h

/-- The first segment of a nonempty rectangular array is a member of the
segment list. -/
theorem headD_mem {a : Arr3} (hr : Rect a) (h0 : 0 < a.s0) :
    a.d.headD [] ∈ a.d := by
  cases hd : a.d with
  | nil =>
      exfalso
      have := hr.1
      rw [hd] at this
      simp at this
      omega
  | cons x xs => simp [hd]

/-- Shape of the first segment of a nonempty rectangular array. -/
theorem rect_head {a : Arr3} (hr : Rect a) (h0 : 0 < a.s0) :
    (a.d.headD []).length = a.s1 ∧
      ∀ chl ∈ a.d.headD [], chl.length = a.s2 :=
  hr.2 _ (headD_mem hr h0)

/-- Length of an in-bounds channel slice. -/
theorem length_slice_chl {chl : List Value} {s2 : ℕ} (hc : chl.length = s2)
    {st len : ℤ} (h1 : 0 ≤ st) (h2 : st + len ≤ (s2 : ℤ)) :
    ((chl.drop st.toNat).take len.toNat).length = len.toNat := by
  rw [List.length_take, List.length_drop, hc]
  omega

/-- Trimming `ps` samples from each end of an in-bounds padded slice gives
the unpadded slice. -/
theorem trimEnds_slice {chl : List Value} {s2 : ℕ} (hc : chl.length = s2)
    {st w0 ps : ℤ} (hps : 0 ≤ ps) (hw : 0 ≤ w0)
    (h1 : 0 ≤ st - ps) (h2 : st - ps + (w0 + 2 * ps) ≤ (s2 : ℤ)) :
    trimEnds ps.toNat ((chl.drop (st - ps).toNat).take (w0 + 2 * ps).toNat) =
      (chl.drop st.toNat).take w0.toNat := by
  have hlen : ((chl.drop (st - ps).toNat).take (w0 + 2 * ps).toNat).length =
      (w0 + 2 * ps).toNat := by
    rw [List.length_take, List.length_drop, hc]
    omega
  unfold trimEnds
  rw [hlen, List.drop_take, List.drop_drop, List.take_take]
  have e1 : (st - ps).toNat + ps.toNat = st.toNat := by omega
  have e2 : min ((w0 + 2 * ps).toNat - 2 * ps.toNat)
      ((w0 + 2 * ps).toNat - ps.toNat) = w0.toNat := by omega
  rw [e1, e2]


/-! Claim theorems. -/

/-- Claim C1: for every event whose computed sample window
[eegoffset + samp_start, eegoffset + samp_start + samp_len) lies fully within
the signal's sample axis, the corresponding row of the epoch tensor returned
by LoadEEG equals, value for value, the slice of the continuous signal over
that window for every channel. -/
theorem loadEEG_inbounds_row (dr : SessionRow) (a : Arr3) (sr : ℚ)
    (ch : List String) (events : List ℤ) (es l : ℚ) (buf : Option ℚ)
    (strict : Bool) (out : List (List (List Value))) (sro : ℚ)
    (cho : List String) (i : ℕ) (ev : ℤ)
    (hok : loadEEG dr a sr ch events es (some l) buf strict = .ok out sro cho)
    (hev : events[i]? = some ev)
    (h1 : 0 ≤ ev + sampStart es buf sr)
    (h2 : ev + sampStart es buf sr + sampLen l buf sr ≤ (a.s2 : ℤ)) :
    out[i]? =
      some (sliceWindow a (ev + sampStart es buf sr) (sampLen l buf sr)) := by
  rw [loadEEG_some_def] at hok
  obtain ⟨ho, -, -, -⟩ := loadEEGSamp_ok_inv hok
  rw [ho, loadSeg_getElem, hev, Option.map_some', eventRow_inbounds h1 h2]

/-- Claim C1 witness: the concrete scenario of the spec. Signal of shape
(1, 2, 1000) at 1000 Hz, one event at eegoffset 500, ev_start -100 ms,
ev_len 200 ms, no buffer: the call succeeds and row 0 is the slice of
the signal over the window [400, 600). -/
theorem loadEEG_inbounds_row_witness :
    loadEEG drA sigA 1000 [] [500] (-100) (some 200) none false =
      .ok (loadSeg sigA [500] (-100) 200) 1000 [] ∧
    (loadSeg sigA [500] (-100) 200)[0]? =
      some (sliceWindow sigA (500 + sampStart (-100) none 1000)
        (sampLen 200 none 1000)) ∧
    sliceWindow sigA (500 + sampStart (-100) none 1000)
        (sampLen 200 none 1000) =
      [(List.range 200).map fun t => some ((400 + t : ℕ) : ℚ),
       (List.range 200).map fun t => some ((1400 + t : ℕ) : ℚ)] := by
  have hss : sampStart (-100) none 1000 = -100 :=
    pyRound_eq_of_eq_intCast (by norm_num [evStartEff])
  have hsl : sampLen 200 none 1000 = 200 :=
    pyRound_eq_of_eq_intCast (by norm_num [evLenEff])
  have hok : loadEEG drA sigA 1000 [] [500] (-100) (some 200) none false =
      .ok (loadSeg sigA [500] (-100) 200) 1000 [] := by
    rw [loadEEG_some_def, hss, hsl]
    decide
  refine ⟨hok, ?_, ?_⟩
  · exact loadEEG_inbounds_row drA sigA 1000 [] [500] (-100) 200 none false
      (loadSeg sigA [500] (-100) 200) 1000 [] 0 500 hok (by decide)
      (by rw [hss]; decide) (by rw [hss, hsl]; decide)
  · rw [hss, hsl]
    decide

/-- Claim C2: for every event whose computed window leaves the valid sample
range even by one sample, the returned row is entirely the NaN fill; and no
row is ever filled only in part: each is the full signal slice or all NaN. -/
theorem loadEEG_oob_row_nan (dr : SessionRow) (a : Arr3) (sr : ℚ)
    (ch : List String) (events : List ℤ) (es l : ℚ) (buf : Option ℚ)
    (strict : Bool) (out : List (List (List Value))) (sro : ℚ)
    (cho : List String) (i : ℕ) (ev : ℤ)
    (hok : loadEEG dr a sr ch events es (some l) buf strict = .ok out sro cho)
    (hev : events[i]? = some ev) :
    (¬(0 ≤ ev + sampStart es buf sr ∧
        ev + sampStart es buf sr + sampLen l buf sr ≤ (a.s2 : ℤ)) →
      out[i]? = some (nanRow a (sampLen l buf sr))) ∧
    (out[i]? =
        some (sliceWindow a (ev + sampStart es buf sr) (sampLen l buf sr)) ∨
      out[i]? = some (nanRow a (sampLen l buf sr))) := by
  rw [loadEEG_some_def] at hok
  obtain ⟨ho, -, -, -⟩ := loadEEGSamp_ok_inv hok
  rw [ho, loadSeg_getElem, hev, Option.map_some']
  constructor
  · intro hoob
    rw [eventRow_oob hoob]
  · by_cases hin : 0 ≤ ev + sampStart es buf sr ∧
        ev + sampStart es buf sr + sampLen l buf sr ≤ (a.s2 : ℤ)
    · exact Or.inl (by rw [eventRow_inbounds hin.1 hin.2])
    · exact Or.inr (by rw [eventRow_oob hin])

/-- Claim C2 witness: the concrete scenario of the spec. Signal of shape
(1, 2, 1000) at 1000 Hz, event at eegoffset 950, ev_start -100 ms,
ev_len 200 ms: the window [850, 1050) exceeds the signal, so row 0 is
entirely NaN. -/
theorem loadEEG_oob_row_nan_witness :
    loadEEG drA sigA 1000 [] [950] (-100) (some 200) none false =
      .ok (loadSeg sigA [950] (-100) 200) 1000 [] ∧
    (loadSeg sigA [950] (-100) 200)[0]? =
      some (nanRow sigA (sampLen 200 none 1000)) ∧
    nanRow sigA (sampLen 200 none 1000) =
      [List.replicate 200 (none : Value), List.replicate 200 (none : Value)] := by
  have hss : sampStart (-100) none 1000 = -100 :=
    pyRound_eq_of_eq_intCast (by norm_num [evStartEff])
  have hsl : sampLen 200 none 1000 = 200 :=
    pyRound_eq_of_eq_intCast (by norm_num [evLenEff])
  have hok : loadEEG drA sigA 1000 [] [950] (-100) (some 200) none false =
      .ok (loadSeg sigA [950] (-100) 200) 1000 [] := by
    rw [loadEEG_some_def, hss, hsl]
    decide
  refine ⟨hok, ?_, ?_⟩
  · exact (loadEEG_oob_row_nan drA sigA 1000 [] [950] (-100) 200 none false
      (loadSeg sigA [950] (-100) 200) 1000 [] 0 950 hok (by decide)).1
      (by rw [hss, hsl]; decide)
  · rw [hsl]
    decide

/-- Claim C3: every successful segmentation call returns an epoch tensor with
event-axis length equal to the event-table length, channel-axis length equal
to the signal's channel-axis length, sample-axis length equal to the computed
window length; and row i is determined by event-table row i, in order. -/
theorem loadEEG_shape_order (dr : SessionRow) (a : Arr3) (sr : ℚ)
    (ch : List String) (events : List ℤ) (es l : ℚ) (buf : Option ℚ)
    (strict : Bool) (out : List (List (List Value))) (sro : ℚ)
    (cho : List String)
    (hr : Rect a) (h0 : 0 < a.s0)
    (hok : loadEEG dr a sr ch events es (some l) buf strict = .ok out sro cho) :
    out.length = events.length ∧
    (∀ row ∈ out, row.length = a.s1 ∧
      ∀ chl ∈ row, chl.length = (sampLen l buf sr).toNat) ∧
    (∀ i : ℕ, out[i]? =
      (events[i]?).map (eventRow a (sampStart es buf sr) (sampLen l buf sr))) := by
  rw [loadEEG_some_def] at hok
  obtain ⟨ho, -, -, -⟩ := loadEEGSamp_ok_inv hok
  subst ho
  refine ⟨List.length_map _ _, ?_, fun i => loadSeg_getElem a events _ _ i⟩
  intro row hrow
  obtain ⟨ev, -, hrow⟩ := List.mem_map.1 hrow
  subst hrow
  unfold eventRow
  by_cases hin : 0 ≤ ev + sampStart es buf sr ∧
      ev + sampStart es buf sr + sampLen l buf sr ≤ (a.s2 : ℤ)
  · rw [if_pos hin]
    unfold sliceWindow
    constructor
    · rw [List.length_map, (rect_head hr h0).1]
    · intro chl hchl
      obtain ⟨c, hc, hchl⟩ := List.mem_map.1 hchl
      subst hchl
      exact length_slice_chl ((rect_head hr h0).2 c hc) hin.1 hin.2
  · rw [if_neg hin]
    unfold nanRow
    constructor
    · exact List.length_replicate _ _
    · intro chl hchl
      rw [List.eq_of_mem_replicate hchl]
      exact List.length_replicate _ _

/-- Claim C3 witness: for the (1, 2, 1000) signal and two events, the output
has 2 rows of 2 channels of 200 samples each, and the rows follow the event
order. -/
theorem loadEEG_shape_order_witness :
    Rect sigA ∧ 0 < sigA.s0 ∧
    loadEEG drA sigA 1000 [] [500, 950] (-100) (some 200) none false =
      .ok (loadSeg sigA [500, 950] (-100) 200) 1000 [] ∧
    (loadSeg sigA [500, 950] (-100) 200).length = 2 ∧
    (∀ row ∈ loadSeg sigA [500, 950] (-100) 200, row.length = 2 ∧
      ∀ chl ∈ row, chl.length = 200) ∧
    (∀ i : ℕ, (loadSeg sigA [500, 950] (-100) 200)[i]? =
      (([500, 950] : List ℤ)[i]?).map (eventRow sigA (-100) 200)) := by
  have hss : sampStart (-100) none 1000 = -100 :=
    pyRound_eq_of_eq_intCast (by norm_num [evStartEff])
  have hsl : sampLen 200 none 1000 = 200 :=
    pyRound_eq_of_eq_intCast (by norm_num [evLenEff])
  have hok : loadEEG drA sigA 1000 [] [500, 950] (-100) (some 200) none false =
      .ok (loadSeg sigA [500, 950] (-100) 200) 1000 [] := by
    rw [loadEEG_some_def, hss, hsl]
    decide
  have h := loadEEG_shape_order drA sigA 1000 [] [500, 950] (-100) 200 none
    false (loadSeg sigA [500, 950] (-100) 200) 1000 [] (by decide) (by decide)
    hok
  rw [hss, hsl] at h
  simp only [show Int.toNat 200 = 200 from rfl, show sigA.s1 = 2 from rfl] at h
  exact ⟨by decide, by decide, hok, h.1, h.2.1, h.2.2⟩

/-- Claim C4: whenever the converted sample length is at most twice the
padding sample count, LoadEEG fails with the window-too-short validation
error; the error is produced for every signal array alike, so no epoch tensor
is allocated and no signal element is read. -/
theorem loadEEG_window_too_short (dr : SessionRow) (a : Arr3) (sr : ℚ)
    (ch : List String) (events : List ℤ) (es l : ℚ) (buf : Option ℚ)
    (strict : Bool)
    (h : sampLen l buf sr ≤ 2 * bufTrim buf sr) :
    loadEEG dr a sr ch events es (some l) buf strict = .err .windowTooShort ∧
    ∀ a2 : Arr3,
      loadEEG dr a2 sr ch events es (some l) buf strict =
        .err .windowTooShort := by
  refine ⟨?_, fun a2 => ?_⟩ <;>
    (rw [loadEEG_some_def]; unfold loadEEGSamp; rw [if_pos h])

/-- Claim C4 witness: a 0 ms window with a 2 ms buffer at 1000 Hz gives
samp_len 4 and buf_trim 2, so the check fires and the same error comes back
for two different signals. -/
theorem loadEEG_window_too_short_witness :
    sampLen 0 (some 2) 1000 ≤ 2 * bufTrim (some 2) 1000 ∧
    loadEEG drA sigB 1000 [] [0] 0 (some 0) (some 2) false =
      .err .windowTooShort ∧
    loadEEG drA sigA 1000 [] [0] 0 (some 0) (some 2) false =
      .err .windowTooShort := by
  have hsl : sampLen 0 (some 2) 1000 = 4 :=
    pyRound_eq_of_eq_intCast (by norm_num [evLenEff])
  have hbt : bufTrim (some 2) 1000 = 2 :=
    pyRound_eq_of_eq_intCast (by norm_num)
  have hle : sampLen 0 (some 2) 1000 ≤ 2 * bufTrim (some 2) 1000 := by
    rw [hsl, hbt]; decide
  have h := loadEEG_window_too_short drA sigB 1000 [] [0] 0 0 (some 2)
    false hle
  exact ⟨hle, h.1, h.2 sigA⟩

/-- Claim C5: given that the non-strict call returns a tensor, the strict
call raises the data-quality error naming subject, experiment and session
exactly when that tensor contains a NaN, and returns the identical result
when it does not. -/
theorem loadEEG_strict_law (dr : SessionRow) (a : Arr3) (sr : ℚ)
    (ch : List String) (events : List ℤ) (es : ℚ) (ev_len buf : Option ℚ)
    (d : List (List (List Value))) (sro : ℚ) (cho : List String)
    (hok : loadEEG dr a sr ch events es ev_len buf false = .ok d sro cho) :
    (hasNaN3 d = true →
      loadEEG dr a sr ch events es ev_len buf true =
        .err (.nanStrict ("nans in eeg data for " ++ dr.subject ++ " " ++
          dr.experiment ++ " " ++ dr.session))) ∧
    (hasNaN3 d = false →
      loadEEG dr a sr ch events es ev_len buf true = .ok d sro cho) := by
  have hmsg : nanMsg dr = "nans in eeg data for " ++ dr.subject ++ " " ++
      dr.experiment ++ " " ++ dr.session := by
    simp [nanMsg, getLabel, String.append_assoc]
  cases ev_len with
  | none =>
      unfold loadEEG at hok ⊢
      rw [Bool.false_and, if_neg (by simp)] at hok
      injection hok with e1 e2 e3
      subst e1; subst e2; subst e3
      rw [Bool.true_and]
      constructor
      · intro hn
        rw [if_pos hn, hmsg]
      · intro hn
        rw [if_neg (by simp [hn])]
  | some l =>
      rw [loadEEG_some_def] at hok ⊢
      unfold loadEEGSamp at hok ⊢
      by_cases hg : sampLen l buf sr ≤ 2 * bufTrim buf sr
      · rw [if_pos hg] at hok
        exact absurd hok (by simp)
      · rw [if_neg hg] at hok ⊢
        rw [Bool.false_and, if_neg (by simp)] at hok
        injection hok with e1 e2 e3
        subst e1; subst e2; subst e3
        rw [Bool.true_and]
        constructor
        · intro hn
          rw [if_pos hn, hmsg]
        · intro hn
          rw [if_neg (by simp [hn])]

/-- Claim C5 witness: an out-of-bounds event leaves NaNs in the tensor; the
non-strict call succeeds with them present, and the strict call on the same
input raises the labelled data-quality error. -/
theorem loadEEG_strict_law_witness :
    loadEEG drA sigB 1000 [] [20] 0 (some 4) none false =
      .ok (loadSeg sigB [20] 0 4) 1000 [] ∧
    hasNaN3 (loadSeg sigB [20] 0 4) = true ∧
    loadEEG drA sigB 1000 [] [20] 0 (some 4) none true =
      .err (.nanStrict ("nans in eeg data for " ++ drA.subject ++ " " ++
        drA.experiment ++ " " ++ drA.session)) := by
  have hss : sampStart 0 none 1000 = 0 :=
    pyRound_eq_of_eq_intCast (by norm_num [evStartEff])
  have hsl : sampLen 4 none 1000 = 4 :=
    pyRound_eq_of_eq_intCast (by norm_num [evLenEff])
  have hok : loadEEG drA sigB 1000 [] [20] 0 (some 4) none false =
      .ok (loadSeg sigB [20] 0 4) 1000 [] := by
    rw [loadEEG_some_def, hss, hsl]
    decide
  exact ⟨hok, by decide,
    (loadEEG_strict_law drA sigB 1000 [] [20] 0 (some 4) none
      (loadSeg sigB [20] 0 4) 1000 [] hok).1 (by decide)⟩

/-- Claim C6: with no window length the call returns the continuous signal
and sample rate unchanged (no segmentation), and the strict NaN check still
applies to that raw signal. -/
theorem loadEEG_no_window (dr : SessionRow) (a : Arr3) (sr : ℚ)
    (ch : List String) (events : List ℤ) (es : ℚ) (buf : Option ℚ)
    (strict : Bool) :
    ((strict && hasNaN3 a.d) = false →
      loadEEG dr a sr ch events es none buf strict = .ok a.d sr ch) ∧
    ((strict && hasNaN3 a.d) = true →
      loadEEG dr a sr ch events es none buf strict =
        .err (.nanStrict (nanMsg dr))) := by
  unfold loadEEG
  constructor
  · intro h
    rw [if_neg (by simp [h])]
  · intro h
    rw [if_pos h]

/-- Claim C6 witness: a clean signal with no window length comes back
unchanged together with the sample rate and channels. -/
theorem loadEEG_no_window_witness :
    (false && hasNaN3 sigB.d) = false ∧
    loadEEG drA sigB 1000 ["LA1"] [] 0 none none false =
      .ok sigB.d 1000 ["LA1"] :=
  ⟨by decide,
    (loadEEG_no_window drA sigB 1000 ["LA1"] [] 0 none false).1 (by decide)⟩

/-- Claim C7 counterexample: at 1000 Hz with window 4 ms, pad 2 ms, event at
eegoffset 0, the padded window [-2, 6) leaves the signal, so the padded call
returns an all-NaN row; discarding the 2 pad samples from each end does not
give the unpadded call's row [0, 4), which is populated. -/
theorem loadEEG_padding_law_cex :
    loadEEG drA sigB 1000 [] [0] 0 (some 4) (some 2) false =
      .ok [[List.replicate 8 (none : Value)]] 1000 [] ∧
    loadEEG drA sigB 1000 [] [0] 0 (some 4) none false =
      .ok [[[some 0, some 1, some 2, some 3]]] 1000 [] ∧
    (bufTrim (some 2) 1000).toNat = 2 ∧
    trimRow 2 [List.replicate 8 (none : Value)] ≠
      [[some 0, some 1, some 2, some 3]] := by
  have h1 : sampStart 0 (some 2) 1000 = -2 :=
    pyRound_eq_of_eq_intCast (by norm_num [evStartEff])
  have h2 : sampLen 4 (some 2) 1000 = 8 :=
    pyRound_eq_of_eq_intCast (by norm_num [evLenEff])
  have h3 : bufTrim (some 2) 1000 = 2 :=
    pyRound_eq_of_eq_intCast (by norm_num)
  have hss0 : sampStart 0 none 1000 = 0 :=
    pyRound_eq_of_eq_intCast (by norm_num [evStartEff])
  have hsl0 : sampLen 4 none 1000 = 4 :=
    pyRound_eq_of_eq_intCast (by norm_num [evLenEff])
  refine ⟨?_, ?_, ?_, ?_⟩
  · rw [loadEEG_some_def, h1, h2, h3]
    decide
  · rw [loadEEG_some_def, hss0, hsl0]
    decide
  · rw [h3]
    decide
  · decide

/-- Claim C7 amended: for every event whose padded window lies fully within
the signal, and for millisecond parameters that convert exactly to whole
samples, trimming the pad samples from each end of the padded call's row
gives exactly the unpadded call's row. (Rows whose padded window leaves the
signal are entirely NaN in the padded call even when the unpadded window is
in bounds, as the counterexample shows.) -/
theorem loadEEG_padding_law_trim (dr : SessionRow) (a : Arr3) (sr : ℚ)
    (ch : List String) (events : List ℤ) (es w p : ℚ)
    (strictP strictU : Bool)
    (outP outU : List (List (List Value))) (sroP sroU : ℚ)
    (choP choU : List String) (a0 w0 ps : ℤ) (i : ℕ) (ev : ℤ)
    (hr : Rect a) (h0 : 0 < a.s0)
    (ha0 : es * sr / 1000 = (a0 : ℚ))
    (hw0 : w * sr / 1000 = (w0 : ℚ))
    (hps : p * sr / 1000 = (ps : ℚ))
    (hps0 : 0 ≤ ps)
    (hokP : loadEEG dr a sr ch events es (some w) (some p) strictP =
      .ok outP sroP choP)
    (hokU : loadEEG dr a sr ch events es (some w) none strictU =
      .ok outU sroU choU)
    (hev : events[i]? = some ev)
    (hin1 : 0 ≤ ev + (a0 - ps))
    (hin2 : ev + (a0 - ps) + (w0 + 2 * ps) ≤ (a.s2 : ℤ)) :
    (outP[i]?).map (trimRow ps.toNat) = outU[i]? := by
  have hsP : sampStart es (some p) sr = a0 - ps := by
    apply pyRound_eq_of_eq_intCast
    show (es - p) * sr / 1000 = _
    rw [sub_mul, sub_div, ha0, hps]
    push_cast
    ring
  have hlP : sampLen w (some p) sr = w0 + 2 * ps := by
    apply pyRound_eq_of_eq_intCast
    show (w + 2 * p) * sr / 1000 = _
    rw [add_mul, add_div, hw0, mul_assoc, mul_div_assoc, hps]
    push_cast
    ring
  have hbP : bufTrim (some p) sr = ps := pyRound_eq_of_eq_intCast hps
  have hsU : sampStart es none sr = a0 := pyRound_eq_of_eq_intCast ha0
  have hlU : sampLen w none sr = w0 := pyRound_eq_of_eq_intCast hw0
  rw [loadEEG_some_def, hsP, hlP, hbP] at hokP
  rw [loadEEG_some_def, hsU, hlU] at hokU
  obtain ⟨hoP, -, -, hgP⟩ := loadEEGSamp_ok_inv hokP
  obtain ⟨hoU, -, -, -⟩ := loadEEGSamp_ok_inv hokU
  have hw : 0 ≤ w0 := by omega
  subst hoP
  subst hoU
  rw [loadSeg_getElem, loadSeg_getElem, hev]
  simp only [Option.map_some']
  congr 1
  rw [eventRow_inbounds hin1 hin2,
      eventRow_inbounds (by omega : 0 ≤ ev + a0)
        (by omega : ev + a0 + w0 ≤ (a.s2 : ℤ))]
  unfold trimRow sliceWindow
  rw [List.map_map]
  apply List.map_congr_left
  intro chl hchl
  have hc := (rect_head hr h0).2 chl hchl
  show trimEnds ps.toNat
      ((chl.drop (ev + (a0 - ps)).toNat).take (w0 + 2 * ps).toNat) = _
  rw [show ev + (a0 - ps) = ev + a0 - ps from by ring]
  exact trimEnds_slice hc hps0 hw (by omega) (by omega)

/-- Claim C7 amended witness: window 4 ms, pad 2 ms, event at eegoffset 2 on
the 10-sample signal: the padded row covers [0, 8); trimming 2 samples from
each end yields the unpadded row [2, 6). -/
theorem loadEEG_padding_law_trim_witness :
    loadEEG drA sigB 1000 [] [2] 0 (some 4) (some 2) false =
      .ok (loadSeg sigB [2] (-2) 8) 1000 [] ∧
    loadEEG drA sigB 1000 [] [2] 0 (some 4) none false =
      .ok (loadSeg sigB [2] 0 4) 1000 [] ∧
    ((loadSeg sigB [2] (-2) 8)[0]?).map (trimRow (2 : ℤ).toNat) =
      (loadSeg sigB [2] 0 4)[0]? ∧
    (loadSeg sigB [2] 0 4)[0]? =
      some [[some 2, some 3, some 4, some 5]] := by
  have h1 : sampStart 0 (some 2) 1000 = -2 :=
    pyRound_eq_of_eq_intCast (by norm_num [evStartEff])
  have h2 : sampLen 4 (some 2) 1000 = 8 :=
    pyRound_eq_of_eq_intCast (by norm_num [evLenEff])
  have h3 : bufTrim (some 2) 1000 = 2 :=
    pyRound_eq_of_eq_intCast (by norm_num)
  have hss0 : sampStart 0 none 1000 = 0 :=
    pyRound_eq_of_eq_intCast (by norm_num [evStartEff])
  have hsl0 : sampLen 4 none 1000 = 4 :=
    pyRound_eq_of_eq_intCast (by norm_num [evLenEff])
  have hokP : loadEEG drA sigB 1000 [] [2] 0 (some 4) (some 2) false =
      .ok (loadSeg sigB [2] (-2) 8) 1000 [] := by
    rw [loadEEG_some_def, h1, h2, h3]
    decide
  have hokU : loadEEG drA sigB 1000 [] [2] 0 (some 4) none false =
      .ok (loadSeg sigB [2] 0 4) 1000 [] := by
    rw [loadEEG_some_def, hss0, hsl0]
    decide
  refine ⟨hokP, hokU, ?_, by decide⟩
  exact loadEEG_padding_law_trim drA sigB 1000 [] [2] 0 4 2 false false
    (loadSeg sigB [2] (-2) 8) (loadSeg sigB [2] 0 4) 1000 1000 [] []
    0 4 2 0 2 (by decide) (by decide) (by norm_num) (by norm_num)
    (by norm_num) (by decide) hokP hokU (by decide) (by decide) (by decide)

/-- Claim C8 counterexample: a segmentation call stores the loaded event
table on the loader object, where it persists after the call — the loader
state is changed, so the data is cached on the object. -/
theorem loadEEG_caches_events_cex :
    (loadEEGSt ⟨false, none⟩ drA sigB 1000 [] [2] 0 (some 4) none none).2 ≠
      (⟨false, none⟩ : LoaderState) ∧
    (loadEEGSt ⟨false, none⟩ drA sigB 1000 [] [2] 0 (some 4) none
        none).2.events = some [2] := by
  constructor
  · decide
  · decide

/-- Claim C8 amended: LoadEEG's returned value is a function of its inputs
alone (no mutation of the input data), and the only persistent effect on the
loader object is that a segmentation call stores the loaded event table in
`self.events`; the strict default is unchanged, and a call without a window
length leaves the loader state untouched. -/
theorem loadEEGSt_frame (ls : LoaderState) (dr : SessionRow) (a : Arr3)
    (sr : ℚ) (ch : List String) (events : List ℤ) (es : ℚ)
    (ev_len buf : Option ℚ) (strictArg : Option Bool) :
    (loadEEGSt ls dr a sr ch events es ev_len buf strictArg).1 =
      loadEEG dr a sr ch events es ev_len buf (resolveStrict ls strictArg) ∧
    (loadEEGSt ls dr a sr ch events es ev_len buf strictArg).2.strict =
      ls.strict ∧
    (ev_len = none →
      (loadEEGSt ls dr a sr ch events es ev_len buf strictArg).2 = ls) ∧
    (∀ l, ev_len = some l →
      (loadEEGSt ls dr a sr ch events es ev_len buf strictArg).2.events =
        some events) := by
  cases ev_len with
  | none => exact ⟨rfl, rfl, fun _ => rfl, fun l h => Option.noConfusion h⟩
  | some l => exact ⟨rfl, rfl, fun h => Option.noConfusion h, fun l2 _ => rfl⟩

/-- Claim C8 amended witness: a segmentation call records the event table on
the loader, and a no-window call leaves the loader state unchanged. -/
theorem loadEEGSt_frame_witness :
    (loadEEGSt ⟨false, none⟩ drA sigB 1000 [] [2] 0 (some 4) none
        none).2.events = some [2] ∧
    (loadEEGSt ⟨true, some [7]⟩ drA sigB 1000 [] [2] 0 none none
        (some false)).2 = (⟨true, some [7]⟩ : LoaderState) :=
  ⟨(loadEEGSt_frame ⟨false, none⟩ drA sigB 1000 [] [2] 0 (some 4) none
      none).2.2.2 4 rfl,
   (loadEEGSt_frame ⟨true, some [7]⟩ drA sigB 1000 [] [2] 0 none none
      (some false)).2.2.1 rfl⟩

/-- Claim C9: ClusterChecked collects one result per task before inspecting
them; when every task fails it raises the total-failure error, and when some
but not all fail it reports exactly the failing parameter values together
with the failure counts before raising. -/
theorem clusterChecked_failure_policy {α : Type} (f : α → Bool)
    (params : List α) :
    (clusterRun f params).length = params.length ∧
    ((∃ p ∈ params, f p = false) → (∀ p ∈ params, f p = false) →
      clusterChecked f params = .allFailed params.length) ∧
    ((∃ p ∈ params, f p = false) → (∃ p ∈ params, f p = true) →
      clusterChecked f params =
        .someFailed (failingParams f params) (failedCount f params)
          params.length) := by
  have hlen : (clusterRun f params).length = params.length :=
    List.length_map _ _
  refine ⟨hlen, ?_, ?_⟩
  · rintro ⟨p, hp, hfp⟩ hall
    have hnotall : ¬ ((clusterRun f params).all fun b => b) = true := by
      intro hA
      have := List.all_eq_true.1 hA (f p) (List.mem_map_of_mem f hp)
      rw [hfp] at this
      exact absurd this (by simp)
    have hfilter : ((clusterRun f params).filter fun b => !b) =
        clusterRun f params := by
      apply List.filter_eq_self.2
      intro b hb
      obtain ⟨q, hq, hbq⟩ := List.mem_map.1 hb
      rw [← hbq, hall q hq]
      decide
    have hfc : failedCount f params = (clusterRun f params).length := by
      unfold failedCount
      rw [hfilter]
    unfold clusterChecked
    rw [if_neg hnotall, if_pos hfc, hfc, hlen]
  · rintro ⟨p, hp, hfp⟩ ⟨q, hq, hfq⟩
    have hnotall : ¬ ((clusterRun f params).all fun b => b) = true := by
      intro hA
      have := List.all_eq_true.1 hA (f p) (List.mem_map_of_mem f hp)
      rw [hfp] at this
      exact absurd this (by simp)
    have hlt : failedCount f params < (clusterRun f params).length := by
      unfold failedCount
      apply List.length_filter_lt_length_iff_exists.2
      refine ⟨f q, List.mem_map_of_mem f hq, ?_⟩
      rw [hfq]
      decide
    unfold clusterChecked
    rw [if_neg hnotall, if_neg (Nat.ne_of_lt hlt), hlen]

/-- Claim C9 witness: the spec's 5-parameter scenario where the task returns
False for parameters 2 and 4: the wrapper reports exactly [2, 4] and raises
the 2-of-5 failure after all 5 results were collected. -/
theorem clusterChecked_failure_policy_witness :
    clusterChecked fC9 paramsC9 =
      .someFailed (failingParams fC9 paramsC9) (failedCount fC9 paramsC9)
        paramsC9.length ∧
    failingParams fC9 paramsC9 = [2, 4] ∧
    failedCount fC9 paramsC9 = 2 ∧
    paramsC9.length = 5 ∧
    (clusterRun fC9 paramsC9).length = 5 :=
  ⟨(clusterChecked_failure_policy fC9 paramsC9).2.2
      ⟨2, by decide, by decide⟩ ⟨1, by decide, by decide⟩,
    by decide, by decide, by decide, by decide⟩

/-- Claim C10: only the first recording segment contributes to the epoch
tensor: two signals agreeing on their first segment and on their channel and
sample axis sizes produce identical segmentation results, whatever their
further segments hold. -/
theorem loadEEG_first_segment_only (dr : SessionRow) (a b : Arr3) (sr : ℚ)
    (ch : List String) (events : List ℤ) (es l : ℚ) (buf : Option ℚ)
    (strict : Bool)
    (h1 : a.s1 = b.s1) (h2 : a.s2 = b.s2) (hd : a.d.headD [] = b.d.headD []) :
    loadEEG dr a sr ch events es (some l) buf strict =
      loadEEG dr b sr ch events es (some l) buf strict := by
  have hseg : ∀ st0 len : ℤ,
      loadSeg a events st0 len = loadSeg b events st0 len := by
    intro st0 len
    unfold loadSeg
    apply List.map_congr_left
    intro ev _
    unfold eventRow sliceWindow nanRow
    rw [h1, h2, hd]
  rw [loadEEG_some_def, loadEEG_some_def]
  unfold loadEEGSamp
  rw [hseg]

/-- Claim C10 witness: two 2-segment signals that differ only in their second
segment give identical segmentation output. -/
theorem loadEEG_first_segment_only_witness :
    sigB2.d.headD [] = sigB2alt.d.headD [] ∧
    sigB2 ≠ sigB2alt ∧
    loadEEG drA sigB2 1000 [] [2] 0 (some 4) none false =
      loadEEG drA sigB2alt 1000 [] [2] 0 (some 4) none false :=
  ⟨by decide, by decide,
    loadEEG_first_segment_only drA sigB2 sigB2alt 1000 [] [2] 0 4 none false
      (by decide) (by decide) (by decide)⟩
